import Mathlib

/-!
Verification of `scripts/arlington-to-vscode.py`: the row-to-completion-item
transformation that converts an Arlington PDF model table into VSCode code
completion items.

Strings are modelled as `List Char`.  `re.sub` with a literal pattern (the only
form the script uses: patterns `";"`, `"_()_"`, `"_(; "` contain no regex
operators beyond escaped parentheses) is modelled by `replaceAll`: a left-to-right
scan replacing every non-overlapping occurrence, continuing after the replaced
text.  `str.find` is modelled by `findSub` (first index, `-1` when absent).

The row-dropping lines call `find` directly on a pandas `Series`, which has no
such attribute, so the pipeline itself raises `AttributeError` on every run;
`ArlingtonToTS` models that error path, and `ArlingtonToTSFixed` the intended
behavior (with the missing `.str` accessor supplied).
-/

/-- One fuelled step of literal-pattern substitution.  At each position, if the
pattern is a prefix of the remaining input, emit the replacement and continue
after the matched text; otherwise emit the current character.  Fuel is consumed
one unit per emitted chunk, so `s.length` fuel always suffices. -/
def replaceAllFuel (pat repl : List Char) : Nat → List Char → List Char
  | 0, s => s
  | _ + 1, [] => []
  | fuel + 1, c :: rest =>
    if pat.isPrefixOf (c :: rest) then
      repl ++ replaceAllFuel pat repl fuel (List.drop pat.length (c :: rest))
    else
      c :: replaceAllFuel pat repl fuel rest

/-- `replaceAll pat repl s` replaces every non-overlapping occurrence of the
literal pattern `pat` in `s` by `repl`, scanning left to right: the model of
Python `re.sub(pat, repl, s)` for a literal pattern. -/
def replaceAll (pat repl s : List Char) : List Char :=
  replaceAllFuel pat repl s.length s

/-- `occurs pat s` tests whether `pat` occurs in `s` as a contiguous substring. -/
def occurs (pat : List Char) : List Char → Bool
  | [] => pat.isEmpty
  | c :: rest => pat.isPrefixOf (c :: rest) || occurs pat rest

/-- First index `≥ i` at which `pat` occurs in the remaining input, else `-1`:
the tail worker of the `str.find` model. -/
def findSubFrom (pat : List Char) (i : Nat) : List Char → Int
  | [] => if pat.isEmpty then Int.ofNat i else -1
  | c :: rest =>
    if pat.isPrefixOf (c :: rest) then Int.ofNat i else findSubFrom pat (i + 1) rest

/-- Model of Python `s.find(pat)`: index of the first occurrence, `-1` if none. -/
def findSub (pat s : List Char) : Int :=
  findSubFrom pat 0 s

/-- One Arlington table row after the `Note` column is dropped (the script drops
`Note` before any of the transformation logic runs).  All fields are strings,
as in the source where every column is read with dtype `string`.  The `Type`
column is called `TypeField` because `Type` is reserved in Lean. -/
structure Row where
  Object : List Char
  Key : List Char
  TypeField : List Char
  SinceVersion : List Char
  DeprecatedIn : List Char
  Required : List Char
  IndirectReference : List Char
  Inheritable : List Char
  DefaultValue : List Char
  PossibleValues : List Char
  SpecialCase : List Char
  Link : List Char
deriving DecidableEq, Repr

/-- Translation of `CreateVSCodeCompletionDocumentation(row)`:

    s = "`" + row["Type"] + "` _("
    s = re.sub(";", "`;`", s)
    if (len(row["SinceVersion"]) == 3): s = s + "PDF " + row["SinceVersion"]
    if (row["Required"] == "TRUE"): s = s + "; Required"
    elif (row["Required"] == "FALSE"): s = s + "; Optional"
    if (row["DeprecatedIn"] != ""): s = s + "; Deprecated in PDF " + row["DeprecatedIn"]
    s = s + ")_"
    if (row["IndirectReference"] == "TRUE"): s = s + " Must be indirect reference."
    s = re.sub("_\(\)_", "", s)
    s = re.sub("_\(; ", "_(", s)
    return s
-/
def CreateVSCodeCompletionDocumentation (row : Row) : List Char :=
  let s := "`".toList ++ row.TypeField ++ "` _(".toList
  let s := replaceAll ";".toList "`;`".toList s
  let s := if row.SinceVersion.length = 3 then s ++ ("PDF ".toList ++ row.SinceVersion) else s
  let s := if row.Required = "TRUE".toList then s ++ "; Required".toList
    else if row.Required = "FALSE".toList then s ++ "; Optional".toList else s
  let s := if row.DeprecatedIn ≠ [] then
    s ++ ("; Deprecated in PDF ".toList ++ row.DeprecatedIn) else s
  let s := s ++ ")_".toList
  let s := if row.IndirectReference = "TRUE".toList then
    s ++ " Must be indirect reference.".toList else s
  let s := replaceAll "_()_".toList "".toList s
  let s := replaceAll "_(; ".toList "_(".toList s
  s

/-- The documentation builder with the `Required` clause (step 4) deleted and
everything else kept verbatim: the comparison definition used to state that an
unexpected `Required` value makes the clause contribute nothing. -/
def CreateVSCodeCompletionDocumentationNoRequired (row : Row) : List Char :=
  let s := "`".toList ++ row.TypeField ++ "` _(".toList
  let s := replaceAll ";".toList "`;`".toList s
  let s := if row.SinceVersion.length = 3 then s ++ ("PDF ".toList ++ row.SinceVersion) else s
  let s := if row.DeprecatedIn ≠ [] then
    s ++ ("; Deprecated in PDF ".toList ++ row.DeprecatedIn) else s
  let s := s ++ ")_".toList
  let s := if row.IndirectReference = "TRUE".toList then
    s ++ " Must be indirect reference.".toList else s
  let s := replaceAll "_()_".toList "".toList s
  let s := replaceAll "_(; ".toList "_(".toList s
  s

/-! ### Basic lemmas about `replaceAll` and `occurs` -/

theorem raf_nil (pat repl : List Char) (n : Nat) : replaceAllFuel pat repl n [] = [] := by
  cases n <;> rfl

/-- Any two sufficient fuels give the same result (for a non-empty pattern every
step consumes at least one input character). -/
theorem raf_congr (p0 : Char) (ps repl : List Char) :
    ∀ (n m : Nat) (s : List Char), s.length ≤ n → s.length ≤ m →
      replaceAllFuel (p0 :: ps) repl n s = replaceAllFuel (p0 :: ps) repl m s := by
  intro n
  induction n with
  | zero =>
    intro m s hn _
    have hs : s = [] := List.length_eq_zero.mp (Nat.le_zero.mp hn)
    subst hs
    rw [raf_nil, raf_nil]
  | succ n ih =>
    intro m s hn hm
    cases s with
    | nil => rw [raf_nil, raf_nil]
    | cons c rest =>
      cases m with
      | zero => simp at hm
      | succ m =>
        simp only [List.length_cons, Nat.succ_le_succ_iff] at hn hm
        simp only [replaceAllFuel]
        by_cases h : (p0 :: ps).isPrefixOf (c :: rest) = true
        · rw [if_pos h, if_pos h]
          have hd : (List.drop (p0 :: ps).length (c :: rest)).length ≤ rest.length := by
            rw [List.length_drop]
            simp only [List.length_cons]
            omega
          rw [ih m (List.drop (p0 :: ps).length (c :: rest)) (Nat.le_trans hd hn)
              (Nat.le_trans hd hm)]
        · rw [if_neg h, if_neg h, ih m rest hn hm]

theorem replaceAll_nil (pat repl : List Char) : replaceAll pat repl [] = [] := rfl

theorem replaceAll_cons_pos (p0 c : Char) (ps repl rest : List Char)
    (h : (p0 :: ps).isPrefixOf (c :: rest) = true) :
    replaceAll (p0 :: ps) repl (c :: rest)
      = repl ++ replaceAll (p0 :: ps) repl (List.drop (p0 :: ps).length (c :: rest)) := by
  show replaceAllFuel (p0 :: ps) repl (c :: rest).length (c :: rest) = _
  simp only [List.length_cons, replaceAllFuel, h, if_true]
  have hd : (List.drop (ps.length + 1) (c :: rest)).length ≤ rest.length := by
    rw [List.length_drop]
    simp only [List.length_cons]
    omega
  exact congrArg (repl ++ ·)
    (raf_congr p0 ps repl rest.length (List.drop (ps.length + 1) (c :: rest)).length
      (List.drop (ps.length + 1) (c :: rest)) hd (Nat.le_refl _))

theorem replaceAll_cons_neg (pat repl : List Char) (c : Char) (rest : List Char)
    (h : pat.isPrefixOf (c :: rest) = false) :
    replaceAll pat repl (c :: rest) = c :: replaceAll pat repl rest := by
  cases pat with
  | nil => simp [List.isPrefixOf] at h
  | cons p0 ps =>
    show replaceAllFuel (p0 :: ps) repl (c :: rest).length (c :: rest) = _
    simp only [List.length_cons, replaceAllFuel, h]
    simp only [Bool.false_eq_true, if_false]
    rfl

theorem isPrefixOf_cons_of_ne (p0 a : Char) (ps l : List Char) (h : p0 ≠ a) :
    (p0 :: ps).isPrefixOf (a :: l) = false := by
  simp [List.isPrefixOf, h]

theorem occurs_nil_cons (p0 : Char) (ps : List Char) : occurs (p0 :: ps) [] = false := rfl

theorem occurs_cons (pat : List Char) (c : Char) (rest : List Char) :
    occurs pat (c :: rest) = (pat.isPrefixOf (c :: rest) || occurs pat rest) := rfl

theorem occurs_eq_false_of_not_mem (p0 : Char) (ps : List Char) :
    ∀ s : List Char, p0 ∉ s → occurs (p0 :: ps) s = false := by
  intro s
  induction s with
  | nil => intro _; rfl
  | cons a rest ih =>
    intro h
    have h1 : p0 ≠ a := fun e => h (e ▸ List.mem_cons_self a rest)
    simp only [occurs, isPrefixOf_cons_of_ne p0 a ps rest h1, Bool.false_or]
    exact ih (fun hm => h (List.mem_cons_of_mem a hm))

theorem occurs_append_of_not_mem (p0 : Char) (ps : List Char) :
    ∀ (A y : List Char), p0 ∉ A → occurs (p0 :: ps) (A ++ y) = occurs (p0 :: ps) y := by
  intro A
  induction A with
  | nil => simp
  | cons a A ih =>
    intro y h
    have h1 : p0 ≠ a := fun e => h (e ▸ List.mem_cons_self a A)
    rw [List.cons_append, occurs_cons, isPrefixOf_cons_of_ne p0 a ps (A ++ y) h1,
      Bool.false_or]
    exact ih y (fun hm => h (List.mem_cons_of_mem a hm))

theorem replaceAll_of_occurs_false (pat repl : List Char) :
    ∀ s, occurs pat s = false → replaceAll pat repl s = s := by
  intro s
  induction s with
  | nil => intro _; rfl
  | cons c rest ih =>
    intro h
    simp only [occurs, Bool.or_eq_false_iff] at h
    rw [replaceAll_cons_neg pat repl c rest h.1, ih h.2]

theorem mem_replaceAllFuel (pat repl : List Char) (a : Char) :
    ∀ (n : Nat) (s : List Char), a ∈ replaceAllFuel pat repl n s → a ∈ s ∨ a ∈ repl := by
  intro n
  induction n with
  | zero => intro s h; exact Or.inl h
  | succ n ih =>
    intro s h
    cases s with
    | nil => rw [raf_nil] at h; simp at h
    | cons c rest =>
      simp only [replaceAllFuel] at h
      by_cases hp : pat.isPrefixOf (c :: rest) = true
      · rw [if_pos hp] at h
        rcases List.mem_append.mp h with h1 | h2
        · exact Or.inr h1
        · rcases ih _ h2 with h3 | h4
          · exact Or.inl (List.mem_of_mem_drop h3)
          · exact Or.inr h4
      · rw [if_neg hp] at h
        rcases List.mem_cons.mp h with h1 | h2
        · exact Or.inl (h1 ▸ List.mem_cons_self c rest)
        · rcases ih _ h2 with h3 | h4
          · exact Or.inl (List.mem_cons_of_mem c h3)
          · exact Or.inr h4

theorem mem_replaceAll (pat repl s : List Char) (a : Char)
    (h : a ∈ replaceAll pat repl s) : a ∈ s ∨ a ∈ repl :=
  mem_replaceAllFuel pat repl a s.length s h

theorem replaceAll_append_of_not_mem (p0 : Char) (ps repl : List Char) :
    ∀ (A y : List Char), p0 ∉ A →
      replaceAll (p0 :: ps) repl (A ++ y) = A ++ replaceAll (p0 :: ps) repl y := by
  intro A
  induction A with
  | nil => simp
  | cons a A ih =>
    intro y h
    have h1 : p0 ≠ a := fun e => h (e ▸ List.mem_cons_self a A)
    rw [List.cons_append,
      replaceAll_cons_neg _ _ _ _ (isPrefixOf_cons_of_ne p0 a ps (A ++ y) h1),
      ih y (fun hm => h (List.mem_cons_of_mem a hm)), List.cons_append]

theorem replaceAll_singleton_append (ch : Char) (repl : List Char) :
    ∀ (x y : List Char),
      replaceAll [ch] repl (x ++ y) = replaceAll [ch] repl x ++ replaceAll [ch] repl y := by
  intro x
  induction x with
  | nil => simp [replaceAll_nil]
  | cons a x ih =>
    intro y
    by_cases h : ch = a
    · subst h
      have hp : ∀ l : List Char, [ch].isPrefixOf (ch :: l) = true := by
        intro l
        simp [List.isPrefixOf]
      rw [List.cons_append, replaceAll_cons_pos ch ch [] repl (x ++ y) (hp (x ++ y)),
        replaceAll_cons_pos ch ch [] repl x (hp x)]
      simp only [List.length_cons, List.length_nil, List.drop_succ_cons, List.drop_zero]
      rw [ih, List.append_assoc]
    · rw [List.cons_append,
        replaceAll_cons_neg _ _ _ _ (isPrefixOf_cons_of_ne ch a [] (x ++ y) h), ih,
        replaceAll_cons_neg _ _ _ _ (isPrefixOf_cons_of_ne ch a [] x h), List.cons_append]

/-! ### Structured view of the documentation builder

Before the two cleanup substitutions, the built string is always
`quotedType ++ "_(" ++ midPart ++ ")_" ++ tailPart`. -/

/-- The back-quoted type prefix including the space before the parenthetical:
result of `re.sub(";", "`;`", "`" + Type + "` _(")` up to (and excluding) `"_("`. -/
def quotedType (r : Row) : List Char :=
  "`".toList ++ replaceAll ";".toList "`;`".toList r.TypeField ++ "` ".toList

/-- Version clause inside the parenthetical. -/
def vPart (r : Row) : List Char :=
  if r.SinceVersion.length = 3 then "PDF ".toList ++ r.SinceVersion else []

/-- Required/Optional clause inside the parenthetical. -/
def reqPart (r : Row) : List Char :=
  if r.Required = "TRUE".toList then "; Required".toList
  else if r.Required = "FALSE".toList then "; Optional".toList else []

/-- Deprecation clause inside the parenthetical. -/
def depPart (r : Row) : List Char :=
  if r.DeprecatedIn ≠ [] then "; Deprecated in PDF ".toList ++ r.DeprecatedIn else []

/-- Everything between `"_("` and `")_"`. -/
def midPart (r : Row) : List Char :=
  vPart r ++ reqPart r ++ depPart r

/-- The indirect-reference sentence after the parenthetical. -/
def tailPart (r : Row) : List Char :=
  if r.IndirectReference = "TRUE".toList then " Must be indirect reference.".toList else []

theorem toList_semi : ";".toList = [';'] := rfl

theorem toList_pat1 : "_()_".toList = ['_', '(', ')', '_'] := rfl

theorem toList_pat2 : "_(; ".toList = ['_', '(', ';', ' '] := rfl

theorem toList_PDF : "PDF ".toList = 'P' :: "DF ".toList := rfl

theorem toList_Req : "; Required".toList = ';' :: ' ' :: 'R' :: "equired".toList := rfl

theorem toList_Opt : "; Optional".toList = ';' :: ' ' :: 'O' :: "ptional".toList := rfl

theorem toList_Dep :
    "; Deprecated in PDF ".toList = ';' :: ' ' :: 'D' :: "eprecated in PDF ".toList := rfl

/-- The first substitution only back-quotes the semicolons of the `Type` field:
the whole pre-cleanup prefix is `quotedType r ++ "_("`. -/
theorem sub_semis (r : Row) :
    replaceAll ";".toList "`;`".toList ("`".toList ++ r.TypeField ++ "` _(".toList)
      = quotedType r ++ "_(".toList := by
  rw [toList_semi, List.append_assoc, replaceAll_singleton_append,
    replaceAll_singleton_append]
  have e1 : replaceAll [';'] "`;`".toList "`".toList = "`".toList := by decide
  have e2 : replaceAll [';'] "`;`".toList "` _(".toList = "` _(".toList := by decide
  have e3 : "` _(".toList = "` ".toList ++ "_(".toList := rfl
  rw [e1, e2, e3]
  unfold quotedType
  rw [toList_semi]
  simp [List.append_assoc]

/-- Bridge: the documentation builder is the two cleanup substitutions applied to
the structured string. -/
theorem doc_eq_structured (r : Row) :
    CreateVSCodeCompletionDocumentation r
      = replaceAll "_(; ".toList "_(".toList (replaceAll "_()_".toList "".toList
          (quotedType r ++ "_(".toList ++ midPart r ++ ")_".toList ++ tailPart r)) := by
  simp only [CreateVSCodeCompletionDocumentation]
  rw [sub_semis]
  unfold midPart vPart reqPart depPart tailPart
  split_ifs <;> simp [List.append_assoc]

/-! ### Cleanup-pass analysis

When the `Type`, `SinceVersion` and `DeprecatedIn` fields contain no underscore,
the only underscores of the pre-cleanup string are the two delimiting the
parenthetical, which pins down every possible pattern occurrence. -/

/-- No occurrence of a pattern `'_' :: '(' :: d :: ps` in a structured string
`A ++ "_(" ++ (c :: m) ++ ")_" ++ tail` whose only underscores are the two
delimiters, provided the first middle character differs from `d`. -/
theorem occurs_structured_false (d : Char) (ps A m tail : List Char) (c : Char)
    (hA : '_' ∉ A) (hdc : d ≠ c) (hm : '_' ∉ c :: m) (ht : '_' ∉ tail)
    (htl : ∀ t, tail ≠ '(' :: t) :
    occurs ('_' :: '(' :: d :: ps) (A ++ '_' :: '(' :: c :: (m ++ ')' :: '_' :: tail))
      = false := by
  rw [occurs_append_of_not_mem '_' ('(' :: d :: ps) A _ hA, occurs_cons]
  have h1 : ('_' :: '(' :: d :: ps).isPrefixOf ('_' :: '(' :: c :: (m ++ ')' :: '_' :: tail))
      = false := by
    have hd : (d == c) = false := beq_eq_false_iff_ne.mpr hdc
    simp [List.isPrefixOf, hd]
  rw [h1, Bool.false_or]
  show occurs _ (('(' :: c :: m) ++ ')' :: '_' :: tail) = false
  have hA2 : '_' ∉ '(' :: c :: m := by
    intro hmem
    rcases List.mem_cons.mp hmem with h | h
    · exact absurd h.symm (by decide)
    · exact hm h
  rw [occurs_append_of_not_mem '_' ('(' :: d :: ps) ('(' :: c :: m) _ hA2, occurs_cons,
    isPrefixOf_cons_of_ne '_' ')' ('(' :: d :: ps) ('_' :: tail) (by decide), Bool.false_or,
    occurs_cons]
  have h2 : ('_' :: '(' :: d :: ps).isPrefixOf ('_' :: tail) = false := by
    cases tail with
    | nil => simp [List.isPrefixOf]
    | cons t0 t =>
      have ht0 : ('(' == t0) = false := by
        refine beq_eq_false_iff_ne.mpr (fun e => ?_)
        exact htl t (by rw [e])
      simp [List.isPrefixOf, ht0]
  rw [h2, Bool.false_or]
  exact occurs_eq_false_of_not_mem '_' ('(' :: d :: ps) tail ht

/-- When the parenthetical is empty, the first cleanup removes `"_()_"` whole and
leaves the surrounding text (including the space before it) unchanged. -/
theorem cleanup_empty_mid (A tail : List Char) (hA : '_' ∉ A) (ht : '_' ∉ tail) :
    replaceAll ['_', '(', ')', '_'] [] (A ++ '_' :: '(' :: ')' :: '_' :: tail)
      = A ++ tail := by
  rw [replaceAll_append_of_not_mem '_' ['(', ')', '_'] [] A _ hA]
  have hp : (['_', '(', ')', '_'] : List Char).isPrefixOf ('_' :: '(' :: ')' :: '_' :: tail)
      = true := by
    simp [List.isPrefixOf]
  rw [replaceAll_cons_pos '_' '_' ['(', ')', '_'] [] ('(' :: ')' :: '_' :: tail) hp]
  have hdrop : List.drop (['_', '(', ')', '_'] : List Char).length
      ('_' :: '(' :: ')' :: '_' :: tail) = tail := rfl
  rw [hdrop, List.nil_append,
    replaceAll_of_occurs_false _ [] tail (occurs_eq_false_of_not_mem '_' _ tail ht)]

theorem toList_open : "_(".toList = ['_', '('] := rfl

theorem toList_close : ")_".toList = [')', '_'] := rfl

theorem toList_empty : "".toList = ([] : List Char) := rfl

/-- Variant of `occurs_structured_false` for the part after the opening `"_("`. -/
theorem occurs_tail_false (d : Char) (ps m tail : List Char) (c : Char)
    (hm : '_' ∉ c :: m) (ht : '_' ∉ tail) (htl : ∀ t, tail ≠ '(' :: t) :
    occurs ('_' :: '(' :: d :: ps) (c :: (m ++ ')' :: '_' :: tail)) = false := by
  show occurs _ ((c :: m) ++ ')' :: '_' :: tail) = false
  rw [occurs_append_of_not_mem '_' ('(' :: d :: ps) (c :: m) _ hm, occurs_cons,
    isPrefixOf_cons_of_ne '_' ')' ('(' :: d :: ps) ('_' :: tail) (by decide), Bool.false_or,
    occurs_cons]
  have h2 : ('_' :: '(' :: d :: ps).isPrefixOf ('_' :: tail) = false := by
    cases tail with
    | nil => simp [List.isPrefixOf]
    | cons t0 t =>
      have ht0 : ('(' == t0) = false := by
        refine beq_eq_false_iff_ne.mpr (fun e => ?_)
        exact htl t (by rw [e])
      simp [List.isPrefixOf, ht0]
  rw [h2, Bool.false_or]
  exact occurs_eq_false_of_not_mem '_' ('(' :: d :: ps) tail ht

/-- Master lemma: on a structured string whose only underscores are the two
parenthetical delimiters and whose middle part has one of the three shapes the
builder can produce, the result of the two cleanup substitutions contains
neither `"_()_"` nor `"_(; "`. -/
theorem cleanup_clean (A mid tail : List Char)
    (hA : '_' ∉ A) (hmid : '_' ∉ mid) (ht : '_' ∉ tail) (htl : ∀ t, tail ≠ '(' :: t)
    (hshape : mid = [] ∨ (∃ c m, mid = c :: m ∧ c ≠ ')' ∧ c ≠ ';') ∨
      (∃ c m, mid = ';' :: ' ' :: c :: m ∧ c ≠ ')' ∧ c ≠ ';')) :
    occurs "_()_".toList (replaceAll "_(; ".toList "_(".toList (replaceAll "_()_".toList
        "".toList (A ++ "_(".toList ++ mid ++ ")_".toList ++ tail))) = false ∧
    occurs "_(; ".toList (replaceAll "_(; ".toList "_(".toList (replaceAll "_()_".toList
        "".toList (A ++ "_(".toList ++ mid ++ ")_".toList ++ tail))) = false := by
  rw [toList_pat1, toList_pat2, toList_open, toList_close, toList_empty]
  have harg : A ++ ['_', '('] ++ mid ++ [')', '_'] ++ tail
      = A ++ '_' :: '(' :: (mid ++ ')' :: '_' :: tail) := by
    simp [List.append_assoc]
  rw [harg]
  rcases hshape with h | ⟨c, m, hcm, hc1, hc2⟩ | ⟨c, m, hcm, hc1, hc2⟩
  · subst h
    simp only [List.nil_append]
    rw [cleanup_empty_mid A tail hA ht]
    have hAt : '_' ∉ A ++ tail := by
      intro hmem
      rcases List.mem_append.mp hmem with h | h
      · exact hA h
      · exact ht h
    rw [replaceAll_of_occurs_false _ _ _ (occurs_eq_false_of_not_mem '_' _ _ hAt)]
    exact ⟨occurs_eq_false_of_not_mem '_' _ _ hAt, occurs_eq_false_of_not_mem '_' _ _ hAt⟩
  · subst hcm
    have e : (c :: m) ++ ')' :: '_' :: tail = c :: (m ++ ')' :: '_' :: tail) := rfl
    rw [e]
    have o1 := occurs_structured_false ')' ['_'] A m tail c hA (Ne.symm hc1) hmid ht htl
    have o2 := occurs_structured_false ';' [' '] A m tail c hA (Ne.symm hc2) hmid ht htl
    rw [replaceAll_of_occurs_false _ _ _ o1, replaceAll_of_occurs_false _ _ _ o2]
    exact ⟨o1, o2⟩
  · subst hcm
    have hm3 : '_' ∉ ';' :: ' ' :: c :: m := hmid
    have hm' : '_' ∉ c :: m := by
      intro h
      exact hmid (List.mem_cons_of_mem ';' (List.mem_cons_of_mem ' ' h))
    have e : (';' :: ' ' :: c :: m) ++ ')' :: '_' :: tail
        = ';' :: ((' ' :: c :: m) ++ ')' :: '_' :: tail) := rfl
    rw [e]
    have o1 := occurs_structured_false ')' ['_'] A (' ' :: c :: m) tail ';' hA (by decide)
      hm3 ht htl
    rw [replaceAll_of_occurs_false _ _ _ o1]
    have e2 : (' ' :: c :: m) ++ ')' :: '_' :: tail = ' ' :: ((c :: m) ++ ')' :: '_' :: tail)
        := rfl
    have e3 : (c :: m) ++ ')' :: '_' :: tail = c :: (m ++ ')' :: '_' :: tail) := rfl
    rw [e2, e3, replaceAll_append_of_not_mem '_' ['(', ';', ' '] ['_', '('] A _ hA]
    have hp : (['_', '(', ';', ' '] : List Char).isPrefixOf
        ('_' :: '(' :: ';' :: ' ' :: c :: (m ++ ')' :: '_' :: tail)) = true := by
      simp [List.isPrefixOf]
    rw [replaceAll_cons_pos '_' '_' ['(', ';', ' '] ['_', '(']
      ('(' :: ';' :: ' ' :: c :: (m ++ ')' :: '_' :: tail)) hp]
    have hdrop : List.drop (['_', '(', ';', ' '] : List Char).length
        ('_' :: '(' :: ';' :: ' ' :: c :: (m ++ ')' :: '_' :: tail))
        = c :: (m ++ ')' :: '_' :: tail) := rfl
    rw [hdrop,
      replaceAll_of_occurs_false _ _ _ (occurs_tail_false ';' [' '] m tail c hm' ht htl)]
    have e4 : (['_', '('] : List Char) ++ c :: (m ++ ')' :: '_' :: tail)
        = '_' :: '(' :: c :: (m ++ ')' :: '_' :: tail) := rfl
    rw [e4]
    exact ⟨occurs_structured_false ')' ['_'] A m tail c hA (Ne.symm hc1) hm' ht htl,
      occurs_structured_false ';' [' '] A m tail c hA (Ne.symm hc2) hm' ht htl⟩

/-! ### Per-row facts about the structured parts -/

theorem quotedType_no_underscore (r : Row) (hT : '_' ∉ r.TypeField) :
    '_' ∉ quotedType r := by
  intro h
  unfold quotedType at h
  rcases List.mem_append.mp h with h | h
  · rcases List.mem_append.mp h with h | h
    · exact absurd h (by decide)
    · rcases mem_replaceAll _ _ _ _ h with h | h
      · exact hT h
      · exact absurd h (by decide)
  · exact absurd h (by decide)

theorem midPart_no_underscore (r : Row) (hS : '_' ∉ r.SinceVersion)
    (hD : '_' ∉ r.DeprecatedIn) : '_' ∉ midPart r := by
  have hv : '_' ∉ vPart r := by
    unfold vPart
    split_ifs
    · intro h
      rcases List.mem_append.mp h with h | h
      · exact absurd h (by decide)
      · exact hS h
    · simp
  have hq : '_' ∉ reqPart r := by
    unfold reqPart
    split_ifs
    · decide
    · decide
    · simp
  have hdp : '_' ∉ depPart r := by
    unfold depPart
    split_ifs
    · intro h
      rcases List.mem_append.mp h with h | h
      · exact absurd h (by decide)
      · exact hD h
    · simp
  intro h
  unfold midPart at h
  rcases List.mem_append.mp h with h | h
  · rcases List.mem_append.mp h with h | h
    · exact hv h
    · exact hq h
  · exact hdp h

theorem tailPart_no_underscore (r : Row) : '_' ∉ tailPart r := by
  unfold tailPart
  split_ifs
  · decide
  · simp

theorem tailPart_not_paren (r : Row) : ∀ t, tailPart r ≠ '(' :: t := by
  intro t
  unfold tailPart
  split_ifs
  · intro h
    have : " Must be indirect reference.".toList.head? = some '(' := by rw [h]; rfl
    exact absurd this (by decide)
  · simp

theorem midPart_shape (r : Row) :
    midPart r = [] ∨ (∃ c m, midPart r = c :: m ∧ c ≠ ')' ∧ c ≠ ';') ∨
      (∃ c m, midPart r = ';' :: ' ' :: c :: m ∧ c ≠ ')' ∧ c ≠ ';') := by
  by_cases h1 : r.SinceVersion.length = 3
  · refine Or.inr (Or.inl ⟨'P', "DF ".toList ++ r.SinceVersion ++ reqPart r ++ depPart r,
      ?_, by decide, by decide⟩)
    unfold midPart vPart
    rw [if_pos h1, toList_PDF]
    simp [List.append_assoc]
  · by_cases h2 : r.Required = "TRUE".toList
    · refine Or.inr (Or.inr ⟨'R', "equired".toList ++ depPart r, ?_, by decide, by decide⟩)
      unfold midPart vPart reqPart
      rw [if_neg h1, if_pos h2, toList_Req]
      simp
    · by_cases h3 : r.Required = "FALSE".toList
      · refine Or.inr (Or.inr ⟨'O', "ptional".toList ++ depPart r, ?_, by decide, by decide⟩)
        unfold midPart vPart reqPart
        rw [if_neg h1, if_neg h2, if_pos h3, toList_Opt]
        simp
      · by_cases h4 : r.DeprecatedIn ≠ []
        · refine Or.inr (Or.inr ⟨'D', "eprecated in PDF ".toList ++ r.DeprecatedIn,
            ?_, by decide, by decide⟩)
          unfold midPart vPart reqPart depPart
          rw [if_neg h1, if_neg h2, if_neg h3, if_pos h4, toList_Dep]
          simp
        · left
          unfold midPart vPart reqPart depPart
          rw [if_neg h1, if_neg h2, if_neg h3, if_neg h4]
          rfl

/-! ### Claims about the documentation builder -/

/-- Convenience constructor for rows whose non-documentation fields are empty. -/
def mkDocRow (t sv req dep ind : String) : Row :=
  { Object := [], Key := [], TypeField := t.toList, SinceVersion := sv.toList,
    DeprecatedIn := dep.toList, Required := req.toList, IndirectReference := ind.toList,
    Inheritable := [], DefaultValue := [], PossibleValues := [], SpecialCase := [],
    Link := [] }

/-- Claim C1, counterexample: for the row with `Type = "_(_()_)_"` and the other
documentation fields empty, the output still contains the literal substring
`"_()_"` (removing the inner occurrence re-creates an occurrence from the
surrounding characters, and the scan does not revisit it), so the cleanup-pass
invariant does not hold for all values of the fields. -/
theorem claim_C1_counterexample :
    occurs "_()_".toList (CreateVSCodeCompletionDocumentation
      (mkDocRow "_(_()_)_" "" "" "" "")) = true := by decide

/-- Claim C1 (amended): for every row whose `Type`, `SinceVersion` and
`DeprecatedIn` fields contain no underscore character, the emitted documentation
contains neither the literal substring `"_()_"` nor the literal substring
`"_(; "`. -/
theorem claim_C1_amended (r : Row) (hT : '_' ∉ r.TypeField) (hS : '_' ∉ r.SinceVersion)
    (hD : '_' ∉ r.DeprecatedIn) :
    occurs "_()_".toList (CreateVSCodeCompletionDocumentation r) = false ∧
    occurs "_(; ".toList (CreateVSCodeCompletionDocumentation r) = false := by
  rw [doc_eq_structured]
  exact cleanup_clean (quotedType r) (midPart r) (tailPart r)
    (quotedType_no_underscore r hT) (midPart_no_underscore r hS hD)
    (tailPart_no_underscore r) (tailPart_not_paren r) (midPart_shape r)

/-- Witness for the amended claim C1 at a concrete row. -/
theorem claim_C1_witness :
    occurs "_()_".toList (CreateVSCodeCompletionDocumentation
      (mkDocRow "array;boolean" "1.2" "TRUE" "1.4" "TRUE")) = false ∧
    occurs "_(; ".toList (CreateVSCodeCompletionDocumentation
      (mkDocRow "array;boolean" "1.2" "TRUE" "1.4" "TRUE")) = false :=
  claim_C1_amended (mkDocRow "array;boolean" "1.2" "TRUE" "1.4" "TRUE")
    (by decide) (by decide) (by decide)

/-- Claim C2: the spec's worked example.  Any row with
`Type="array;boolean"`, `SinceVersion="1.2"`, `Required="TRUE"`,
`DeprecatedIn="1.4"`, `IndirectReference="TRUE"` produces exactly the
documented string. -/
theorem claim_C2 (r : Row) (h1 : r.TypeField = "array;boolean".toList)
    (h2 : r.SinceVersion = "1.2".toList) (h3 : r.Required = "TRUE".toList)
    (h4 : r.DeprecatedIn = "1.4".toList) (h5 : r.IndirectReference = "TRUE".toList) :
    CreateVSCodeCompletionDocumentation r
      = ("`array`;`boolean` _(PDF 1.2; Required; Deprecated in PDF 1.4)_"
          ++ " Must be indirect reference.").toList := by
  simp only [CreateVSCodeCompletionDocumentation, h1, h2, h3, h4, h5]
  decide

/-- Witness for claim C2 at a concrete row. -/
theorem claim_C2_witness :
    CreateVSCodeCompletionDocumentation (mkDocRow "array;boolean" "1.2" "TRUE" "1.4" "TRUE")
      = ("`array`;`boolean` _(PDF 1.2; Required; Deprecated in PDF 1.4)_"
          ++ " Must be indirect reference.").toList :=
  claim_C2 (mkDocRow "array;boolean" "1.2" "TRUE" "1.4" "TRUE") rfl rfl rfl rfl rfl

/-- Claim C3, counterexample: for the row `Type="integer"` with the other fields
empty/non-matching, the result is the type-quoted prefix *followed by a trailing
space* (the space written before `"_("` survives the removal of the empty
parenthetical), so the result is not exactly the type-quoted prefix. -/
theorem claim_C3_counterexample :
    CreateVSCodeCompletionDocumentation (mkDocRow "integer" "" "" "" "")
        = "`integer` ".toList ∧
    CreateVSCodeCompletionDocumentation (mkDocRow "integer" "" "" "" "")
        ≠ "`integer`".toList := by decide

/-- Claim C3 (amended): for every row in which `SinceVersion` does not have
length 3, `Required` is neither `"TRUE"` nor `"FALSE"`, `DeprecatedIn` is empty,
`IndirectReference` is not `"TRUE"`, and `Type` contains no underscore, the
parenthetical is removed and the result is the back-quoted type (each `";"`
replaced by `"` + `;` + `"`) followed by exactly one trailing space. -/
theorem claim_C3_amended (r : Row) (hT : '_' ∉ r.TypeField)
    (h1 : r.SinceVersion.length ≠ 3) (h2 : r.Required ≠ "TRUE".toList)
    (h3 : r.Required ≠ "FALSE".toList) (h4 : r.DeprecatedIn = [])
    (h5 : r.IndirectReference ≠ "TRUE".toList) :
    CreateVSCodeCompletionDocumentation r
      = "`".toList ++ replaceAll ";".toList "`;`".toList r.TypeField ++ "` ".toList := by
  rw [doc_eq_structured]
  have hm : midPart r = [] := by
    unfold midPart vPart reqPart depPart
    rw [if_neg h1, if_neg h2, if_neg h3, if_neg (by simp [h4] : ¬r.DeprecatedIn ≠ [])]
    rfl
  have htp : tailPart r = [] := by
    unfold tailPart
    rw [if_neg h5]
  rw [hm, htp]
  have e : quotedType r ++ "_(".toList ++ [] ++ ")_".toList ++ ([] : List Char)
      = quotedType r ++ '_' :: '(' :: ')' :: '_' :: [] := by
    rw [toList_open, toList_close]
    simp [List.append_assoc]
  rw [e, toList_pat1, toList_pat2, toList_empty,
    cleanup_empty_mid (quotedType r) [] (quotedType_no_underscore r hT) (by simp),
    List.append_nil,
    replaceAll_of_occurs_false _ _ _
      (occurs_eq_false_of_not_mem '_' _ _ (quotedType_no_underscore r hT))]
  rfl

/-- Witness for the amended claim C3 at a concrete row. -/
theorem claim_C3_witness :
    CreateVSCodeCompletionDocumentation (mkDocRow "integer" "" "" "" "")
      = "`".toList
          ++ replaceAll ";".toList "`;`".toList (mkDocRow "integer" "" "" "" "").TypeField
          ++ "` ".toList :=
  claim_C3_amended (mkDocRow "integer" "" "" "" "") (by decide) (by decide) (by decide)
    (by decide) (by decide) (by decide)

/-- Claim C8: a `Required` value that is neither `"TRUE"` nor `"FALSE"` makes
the Required/Optional clause contribute nothing: the builder (total, so it never
fails) produces exactly what it would produce with the clause deleted, all other
clauses unchanged. -/
theorem claim_C8 (r : Row) (h1 : r.Required ≠ "TRUE".toList)
    (h2 : r.Required ≠ "FALSE".toList) :
    CreateVSCodeCompletionDocumentation r
      = CreateVSCodeCompletionDocumentationNoRequired r := by
  simp only [CreateVSCodeCompletionDocumentation,
    CreateVSCodeCompletionDocumentationNoRequired, if_neg h1, if_neg h2]

/-- Witness for claim C8 at a concrete row with `Required = "MAYBE"`. -/
theorem claim_C8_witness :
    CreateVSCodeCompletionDocumentation (mkDocRow "integer" "1.0" "MAYBE" "" "")
      = CreateVSCodeCompletionDocumentationNoRequired
          (mkDocRow "integer" "1.0" "MAYBE" "" "") :=
  claim_C8 (mkDocRow "integer" "1.0" "MAYBE" "" "") (by decide) (by decide)

/-- Claim C10: the documentation string depends only on the `Type`,
`SinceVersion`, `Required`, `DeprecatedIn` and `IndirectReference` fields; two
rows agreeing on those five fields get identical documentation regardless of
every other field (the builder reads no other state). -/
theorem claim_C10 (r1 r2 : Row) (h1 : r1.TypeField = r2.TypeField)
    (h2 : r1.SinceVersion = r2.SinceVersion) (h3 : r1.Required = r2.Required)
    (h4 : r1.DeprecatedIn = r2.DeprecatedIn)
    (h5 : r1.IndirectReference = r2.IndirectReference) :
    CreateVSCodeCompletionDocumentation r1 = CreateVSCodeCompletionDocumentation r2 := by
  simp only [CreateVSCodeCompletionDocumentation, h1, h2, h3, h4, h5]

/-- First of two rows agreeing on the five documentation fields only. -/
def rowC10a : Row :=
  { Object := "Catalog".toList, Key := "Pages".toList, TypeField := "name".toList,
    SinceVersion := "1.1".toList, DeprecatedIn := [], Required := "FALSE".toList,
    IndirectReference := [], Inheritable := "TRUE".toList, DefaultValue := [],
    PossibleValues := [], SpecialCase := [], Link := [] }

/-- Second of two rows agreeing on the five documentation fields only. -/
def rowC10b : Row :=
  { Object := "Page".toList, Key := "Parent".toList, TypeField := "name".toList,
    SinceVersion := "1.1".toList, DeprecatedIn := [], Required := "FALSE".toList,
    IndirectReference := [], Inheritable := [], DefaultValue := "zz".toList,
    PossibleValues := "a;b".toList, SpecialCase := "sc".toList, Link := "L".toList }

/-- Witness for claim C10 at two concrete rows differing in `Object`, `Key` and
the passthrough fields. -/
theorem claim_C10_witness :
    CreateVSCodeCompletionDocumentation rowC10a
      = CreateVSCodeCompletionDocumentation rowC10b :=
  claim_C10 rowC10a rowC10b rfl rfl rfl rfl rfl

/-! ### The table pipeline: filtering, identifier assignment, item construction -/

/-- Translation of `CreateVSCodeCompletionData(row)`: the global `rowCount`
(initialised to 1) is incremented and its previous value returned.  Modelled
with the counter state made explicit: input the current `rowCount`, output
`(returned id, new rowCount)`. -/
def CreateVSCodeCompletionData (rowCount : Nat) : Nat × Nat :=
  (rowCount, rowCount + 1)

/-- `df.apply(CreateVSCodeCompletionData, axis=1)` over the rows in table order,
threading the counter state. -/
def applyData : Nat → List Row → List (Row × Nat)
  | _, [] => []
  | rowCount, r :: rest =>
    (r, (CreateVSCodeCompletionData rowCount).1)
      :: applyData (CreateVSCodeCompletionData rowCount).2 rest

/-- A completion item: the retained row fields plus the two added columns. -/
structure Item where
  row : Row
  Data : Nat
  Documentation : List Char
deriving DecidableEq, Repr

/-! ### The drop lines and the `Series.find` attribute error

Lines 76 and 78 of the source evaluate

    df["Object"].find("Array")        (and later  df["Object"].find("ColorSpace"))

on `df["Object"]`, which is a pandas `Series` (every column is read with
`dtype='string'`, so the script requires pandas ≥ 1.0).  A pandas `Series` has
no `find` attribute: vectorized string methods are reachable only through the
`.str` accessor (`df["Object"].str.find(...)`), and `find` is not an index
label of this Series either.  The attribute lookup therefore raises
`AttributeError` before any comparison with `-1` happens, and the pipeline
aborts on its first drop line for every input table. -/

/-- The error the modelled fragment can raise. -/
inductive PandasError where
  | attributeError (attr : List Char)
deriving DecidableEq, Repr

/-- Evaluation of `series.find(pat)` on a pandas Series of strings: the
attribute lookup fails (`find` exists on `str` values and under `.str`, not on
`Series`), so the expression raises `AttributeError` regardless of the pattern
and the data.  Had it succeeded it would have produced one find result per
row, hence the result type. -/
def SeriesFind (_pat : List Char) (_objects : List (List Char)) :
    Except PandasError (List Int) :=
  Except.error (PandasError.attributeError "find".toList)

/-- Drop the rows whose paired find result is not `-1`: what
`df.drop(df[... != -1].index, inplace=True)` does, given per-row find
results. -/
def dropFound (df : List Row) (finds : List Int) : List Row :=
  ((df.zip finds).filter (fun p => p.2 == -1)).map Prod.fst

/-- The in-memory part of `ArlingtonToTS`: the two drops

    arr_obj = df[ df["Object"].find("Array") != -1].index
    df.drop(arr_obj, inplace = True)
    arr_obj = df[ df["Object"].find("ColorSpace") != -1].index
    df.drop(arr_obj, inplace = True)

then the `Data` column (counter starting at 1) and the `Documentation` column.
The first drop line raises `AttributeError` when it evaluates
`df["Object"].find("Array")` (see `SeriesFind`), so the function returns
`Except.error` on every input; the later stages translate the remaining
lines, which only an input-independent successful `find` lookup would
reach. -/
def ArlingtonToTS (df : List Row) : Except PandasError (List Item) :=
  match SeriesFind "Array".toList (df.map Row.Object) with
  | Except.error e => Except.error e
  | Except.ok finds1 =>
    let df1 := dropFound df finds1
    match SeriesFind "ColorSpace".toList (df1.map Row.Object) with
    | Except.error e => Except.error e
    | Except.ok finds2 =>
      let df2 := dropFound df1 finds2
      Except.ok ((applyData 1 df2).map
        (fun p => { row := p.1, Data := p.2,
                    Documentation := CreateVSCodeCompletionDocumentation p.1 }))

/-! ### The intended filter and pipeline

The comment directly above the drop lines — `# Drop all arrays - where
"Object" contains "Array" or "ColorSpace"` — and the spec's `filter_arrays`
operation state the intent of lines 76-79: a literal, case-sensitive substring
filter, i.e. the same lines with the missing `.str` accessor supplied
(`Series.str.find` returns the first index of the substring and `-1` when it
is absent, modelled by `findSub`).  The definitions below embed that intended
semantics; they describe what the code was meant to do, not what it does, and
are used to state the divergence between the two. -/

/-- The intended `filter_arrays`: keep exactly the rows whose `Object` yields
`find == -1` for both patterns. -/
def filter_arrays_intended (df : List Row) : List Row :=
  let df1 := df.filter (fun row => findSub "Array".toList row.Object == -1)
  let df2 := df1.filter (fun row => findSub "ColorSpace".toList row.Object == -1)
  df2

/-- The pipeline as intended (and as it behaves once `.str` is supplied on the
two drop lines): filter, then add the `Data` and `Documentation` columns. -/
def ArlingtonToTSFixed (df : List Row) : List Item :=
  (applyData 1 (filter_arrays_intended df)).map
    (fun p => { row := p.1, Data := p.2,
                Documentation := CreateVSCodeCompletionDocumentation p.1 })

/-! ### Lemmas about `findSub`, `filter_arrays_intended`, `applyData` -/

theorem findSubFrom_eq_neg_iff (p0 : Char) (ps : List Char) :
    ∀ (s : List Char) (i : Nat),
      findSubFrom (p0 :: ps) i s = -1 ↔ occurs (p0 :: ps) s = false := by
  intro s
  induction s with
  | nil =>
    intro i
    simp [findSubFrom, occurs, List.isEmpty]
  | cons c rest ih =>
    intro i
    by_cases h : (p0 :: ps).isPrefixOf (c :: rest) = true
    · have hne : Int.ofNat i ≠ -1 := by
        intro e
        have h0 : (0 : Int) ≤ -1 := e ▸ Int.ofNat_nonneg i
        exact absurd h0 (by decide)
      simp [findSubFrom, occurs_cons, h, hne]
    · have h' : (p0 :: ps).isPrefixOf (c :: rest) = false := by
        cases hb : (p0 :: ps).isPrefixOf (c :: rest)
        · rfl
        · exact absurd hb h
      simp [findSubFrom, occurs_cons, h', ih (i + 1)]

theorem findSub_beq_neg (p0 : Char) (ps s : List Char) :
    (findSub (p0 :: ps) s == -1) = !(occurs (p0 :: ps) s) := by
  by_cases hb : occurs (p0 :: ps) s = true
  · have hne : findSub (p0 :: ps) s ≠ -1 := by
      intro e
      have h2 := (findSubFrom_eq_neg_iff p0 ps s 0).mp e
      rw [hb] at h2
      exact absurd h2 (by decide)
    simp [hb, beq_eq_false_iff_ne.mpr hne]
  · have hb' : occurs (p0 :: ps) s = false := by
      cases h2 : occurs (p0 :: ps) s
      · rfl
      · exact absurd h2 hb
    have he : findSub (p0 :: ps) s = -1 := (findSubFrom_eq_neg_iff p0 ps s 0).mpr hb'
    simp [hb', he]

theorem toList_Array : "Array".toList = 'A' :: "rray".toList := rfl

theorem toList_ColorSpace : "ColorSpace".toList = 'C' :: "olorSpace".toList := rfl

/-- Membership in the intended filtered table: a row survives both drops iff
it was in the input and its `Object` contains neither `"Array"` nor
`"ColorSpace"`. -/
theorem mem_filter_arrays_intended (r : Row) (t : List Row) :
    r ∈ filter_arrays_intended t ↔ r ∈ t ∧ occurs "Array".toList r.Object = false
      ∧ occurs "ColorSpace".toList r.Object = false := by
  unfold filter_arrays_intended
  simp only [List.mem_filter, toList_Array, toList_ColorSpace,
    findSub_beq_neg 'A' "rray".toList r.Object,
    findSub_beq_neg 'C' "olorSpace".toList r.Object, Bool.not_eq_eq_eq_not, Bool.not_true,
    Bool.not_eq_true']
  constructor
  · rintro ⟨⟨h1, h2⟩, h3⟩
    exact ⟨h1, h2, h3⟩
  · rintro ⟨h1, h2, h3⟩
    exact ⟨⟨h1, h2⟩, h3⟩

theorem applyData_map_fst : ∀ (k : Nat) (l : List Row),
    (applyData k l).map Prod.fst = l := by
  intro k l
  induction l generalizing k with
  | nil => rfl
  | cons r rest ih => simp [applyData, CreateVSCodeCompletionData, ih]

theorem applyData_map_snd : ∀ (k : Nat) (l : List Row),
    (applyData k l).map Prod.snd = List.range' k l.length := by
  intro k l
  induction l generalizing k with
  | nil => rfl
  | cons r rest ih =>
    simp [applyData, CreateVSCodeCompletionData, ih, List.range']

theorem applyData_length (k : Nat) (l : List Row) :
    (applyData k l).length = l.length := by
  have h := congrArg List.length (applyData_map_fst k l)
  rw [List.length_map] at h
  exact h

theorem ArlingtonToTSFixed_map_row (t : List Row) :
    (ArlingtonToTSFixed t).map Item.row = filter_arrays_intended t := by
  unfold ArlingtonToTSFixed
  rw [List.map_map]
  have e : (Item.row ∘ fun p : Row × Nat =>
      Item.mk p.1 p.2 (CreateVSCodeCompletionDocumentation p.1)) = Prod.fst := rfl
  rw [e, applyData_map_fst]

theorem ArlingtonToTSFixed_map_Data (t : List Row) :
    (ArlingtonToTSFixed t).map Item.Data
      = List.range' 1 (filter_arrays_intended t).length := by
  unfold ArlingtonToTSFixed
  rw [List.map_map]
  have e : (Item.Data ∘ fun p : Row × Nat =>
      Item.mk p.1 p.2 (CreateVSCodeCompletionDocumentation p.1)) = Prod.snd := rfl
  rw [e, applyData_map_snd]

theorem ArlingtonToTSFixed_length (t : List Row) :
    (ArlingtonToTSFixed t).length = (filter_arrays_intended t).length := by
  unfold ArlingtonToTSFixed
  rw [List.length_map, applyData_length]

/-! ### Intended-behavior properties

These four theorems record that the spec's pipeline properties do hold of the
intended pipeline (the code with `.str` supplied); the corresponding claims
about the shipped code fail only because the drop line raises. -/

/-- Intended behavior of C4: the intended filter drops exactly the
`Array`/`ColorSpace` rows. -/
theorem intended_filter_property (t : List Row) :
    (∀ it ∈ ArlingtonToTSFixed t, occurs "Array".toList it.row.Object = false
        ∧ occurs "ColorSpace".toList it.row.Object = false)
    ∧ (∀ r ∈ t, occurs "Array".toList r.Object = false →
        occurs "ColorSpace".toList r.Object = false → r ∈ filter_arrays_intended t) := by
  constructor
  · intro it hit
    have hrow : it.row ∈ (ArlingtonToTSFixed t).map Item.row := List.mem_map_of_mem _ hit
    rw [ArlingtonToTSFixed_map_row] at hrow
    have h2 := (mem_filter_arrays_intended it.row t).mp hrow
    exact ⟨h2.2.1, h2.2.2⟩
  · intro r hr h1 h2
    exact (mem_filter_arrays_intended r t).mpr ⟨hr, h1, h2⟩

/-- Intended behavior of C5: distinct `Data` values. -/
theorem intended_data_distinct (t : List Row) :
    List.Pairwise (fun a b => a ≠ b) ((ArlingtonToTSFixed t).map Item.Data) := by
  rw [ArlingtonToTSFixed_map_Data]
  have h : (List.range' 1 (filter_arrays_intended t).length).Nodup := List.nodup_range' 1 _
  exact h

/-- Intended behavior of C6: output rows are a subsequence of the input. -/
theorem intended_sublist (t : List Row) :
    List.Sublist ((ArlingtonToTSFixed t).map Item.row) t := by
  rw [ArlingtonToTSFixed_map_row]
  unfold filter_arrays_intended
  exact (List.filter_sublist _).trans (List.filter_sublist _)

/-- Intended behavior of C9: `Data` values are exactly `1, ..., n`. -/
theorem intended_data_range (t : List Row) :
    (ArlingtonToTSFixed t).map Item.Data
      = List.range' 1 ((ArlingtonToTSFixed t).length) := by
  rw [ArlingtonToTSFixed_map_Data, ArlingtonToTSFixed_length]

/-! ### Claims about the pipeline -/

/-- Row whose `Object` matches the `"Array"` drop pattern (not whole-word). -/
def rowBadC4 : Row :=
  { Object := "ArrayOfSomething".toList, Key := [], TypeField := [], SinceVersion := [],
    DeprecatedIn := [], Required := [], IndirectReference := [], Inheritable := [],
    DefaultValue := [], PossibleValues := [], SpecialCase := [], Link := [] }

/-- Row whose `Object` matches neither drop pattern. -/
def rowGoodC4 : Row :=
  { Object := "Catalog".toList, Key := [], TypeField := [], SinceVersion := [],
    DeprecatedIn := [], Required := [], IndirectReference := [], Inheritable := [],
    DefaultValue := [], PossibleValues := [], SpecialCase := [], Link := [] }

/-- Claim C4 (code bug): the drop lines never filter anything.  Evaluated at a
concrete two-row table that the intended filter would split, the pipeline
raises `AttributeError` on `df["Object"].find("Array")` (pandas `Series` has
no `find` attribute) and produces no output at all, instead of dropping
`rowBadC4` and keeping `rowGoodC4` as the claim describes (the intended
behavior is `intended_filter_property`). -/
theorem claim_C4 :
    ArlingtonToTS [rowBadC4, rowGoodC4]
      = Except.error (PandasError.attributeError "find".toList) := rfl

/-- Claim C5 (code bug): no run of the pipeline ever assigns `Data` values.
The filter line raises before `df.apply(CreateVSCodeCompletionData, axis=1)`
is reached, so for every input table the pipeline returns the attribute error
and there is no output whose `Data` distinctness could be observed (the
intended behavior is `intended_data_distinct`). -/
theorem claim_C5 (t : List Row) :
    ArlingtonToTS t = Except.error (PandasError.attributeError "find".toList) := rfl

/-- Claim C6 (code bug): the pipeline produces no output table whose row order
could be compared with the input: every run aborts with the attribute error at
the first drop line (the intended behavior is `intended_sublist`). -/
theorem claim_C6 (t : List Row) :
    (ArlingtonToTS t).toOption = none := rfl

/-- Claim C9 (code bug): no rows ever survive to receive the identifiers
`1, ..., n`: the pipeline never returns successfully (the intended behavior
is `intended_data_range`). -/
theorem claim_C9 (t : List Row) :
    (ArlingtonToTS t).isOk = false := rfl

/-! ### JSON serialization model (`df.to_json(orient='records')` + `json.load`)

The output file is a JSON array of objects, one per row, with the retained
columns plus `Data` (a number) and `Documentation`, in column order.  String
values are escaped (quote and backslash); whitespace produced only for
readability is irrelevant to the round-trip and omitted from the model. -/

/-- JSON escaping of one character. -/
def escapeChar (c : Char) : List Char :=
  if c = '"' then ['\\', '"']
  else if c = '\\' then ['\\', '\\'] else [c]

/-- JSON escaping of a string value. -/
def escapeStr : List Char → List Char
  | [] => []
  | c :: rest => escapeChar c ++ escapeStr rest

/-- Decimal digits of `n`, most significant first (fuelled worker). -/
def digitsFuel : Nat → Nat → List Char
  | 0, _ => []
  | fuel + 1, n =>
    if n < 10 then [Nat.digitChar n]
    else digitsFuel fuel (n / 10) ++ [Nat.digitChar (n % 10)]

/-- Decimal representation of a natural number. -/
def natDigits (n : Nat) : List Char :=
  digitsFuel (n + 1) n

/-- One `"name":"value"` member with an escaped string value. -/
def serializeStrField (name v : List Char) : List Char :=
  ('"' :: (name ++ ['"', ':'])) ++ ('"' :: (escapeStr v ++ ['"']))

/-- One `"name":number` member. -/
def serializeNatField (name : List Char) (v : Nat) : List Char :=
  ('"' :: (name ++ ['"', ':'])) ++ natDigits v

/-- The members of one record, in output column order. -/
def serializeItemFields (it : Item) : List Char :=
  serializeStrField "Object".toList it.row.Object ++ ',' ::
  (serializeStrField "Key".toList it.row.Key ++ ',' ::
  (serializeStrField "Type".toList it.row.TypeField ++ ',' ::
  (serializeStrField "SinceVersion".toList it.row.SinceVersion ++ ',' ::
  (serializeStrField "DeprecatedIn".toList it.row.DeprecatedIn ++ ',' ::
  (serializeStrField "Required".toList it.row.Required ++ ',' ::
  (serializeStrField "IndirectReference".toList it.row.IndirectReference ++ ',' ::
  (serializeStrField "Inheritable".toList it.row.Inheritable ++ ',' ::
  (serializeStrField "DefaultValue".toList it.row.DefaultValue ++ ',' ::
  (serializeStrField "PossibleValues".toList it.row.PossibleValues ++ ',' ::
  (serializeStrField "SpecialCase".toList it.row.SpecialCase ++ ',' ::
  (serializeStrField "Link".toList it.row.Link ++ ',' ::
  (serializeNatField "Data".toList it.Data ++ ',' ::
  (serializeStrField "Documentation".toList it.Documentation ++ ['\x7d'])))))))))))))

/-- One record object. -/
def serializeItem (it : Item) : List Char :=
  '\x7b' :: serializeItemFields it

/-- Comma-separated records followed by the closing bracket. -/
def serializeItemsNE : Item → List Item → List Char
  | it, [] => serializeItem it ++ [']']
  | it, it2 :: more => serializeItem it ++ ',' :: serializeItemsNE it2 more

/-- The whole records array. -/
def serializeTable : List Item → List Char
  | [] => ['[', ']']
  | it :: more => '[' :: serializeItemsNE it more

/-- Consume one expected character. -/
def expectChar (c : Char) : List Char → Option (List Char)
  | [] => none
  | a :: rest => if a = c then some rest else none

/-- Consume an expected literal. -/
def expectLit (lit : List Char) (s : List Char) : Option (List Char) :=
  if lit.isPrefixOf s then some (s.drop lit.length) else none

/-- Parse a string body up to the closing quote, undoing the escapes. -/
def parseStringBody : Nat → List Char → Option (List Char × List Char)
  | 0, _ => none
  | _ + 1, [] => none
  | fuel + 1, c :: rest =>
    if c = '"' then some ([], rest)
    else if c = '\\' then
      match rest with
      | [] => none
      | e :: rest2 =>
        if e = '"' ∨ e = '\\' then
          match parseStringBody fuel rest2 with
          | none => none
          | some (str, rem) => some (e :: str, rem)
        else none
    else
      match parseStringBody fuel rest with
      | none => none
      | some (str, rem) => some (c :: str, rem)

/-- Parse a quoted JSON string. -/
def parseString (s : List Char) : Option (List Char × List Char) :=
  match expectChar '"' s with
  | none => none
  | some r => parseStringBody (r.length + 1) r

/-- Parse a `"name":"value"` member. -/
def parseStrField (name : List Char) (s : List Char) : Option (List Char × List Char) :=
  match expectLit ('"' :: (name ++ ['"', ':'])) s with
  | none => none
  | some r => parseString r

/-- Accumulate decimal digits. -/
def parseDigits : List Char → Nat → Nat × List Char
  | [], acc => (acc, [])
  | c :: rest, acc =>
    if c.isDigit then parseDigits rest (10 * acc + (c.toNat - 48)) else (acc, c :: rest)

/-- Parse a (non-empty) decimal number. -/
def parseNat (s : List Char) : Option (Nat × List Char) :=
  match s with
  | [] => none
  | c :: _ => if c.isDigit then some (parseDigits s 0) else none

/-- Parse a `"name":number` member. -/
def parseNatField (name : List Char) (s : List Char) : Option (Nat × List Char) :=
  match expectLit ('"' :: (name ++ ['"', ':'])) s with
  | none => none
  | some r => parseNat r

/-- Parse one record object. -/
def parseItem (s0 : List Char) : Option (Item × List Char) :=
  match expectChar '\x7b' s0 with
  | none => none
  | some s1 =>
  match parseStrField "Object".toList s1 with
  | none => none
  | some (o, r2) =>
  match expectChar ',' r2 with
  | none => none
  | some s2 =>
  match parseStrField "Key".toList s2 with
  | none => none
  | some (k, r3) =>
  match expectChar ',' r3 with
  | none => none
  | some s3 =>
  match parseStrField "Type".toList s3 with
  | none => none
  | some (ty, r4) =>
  match expectChar ',' r4 with
  | none => none
  | some s4 =>
  match parseStrField "SinceVersion".toList s4 with
  | none => none
  | some (sv, r5) =>
  match expectChar ',' r5 with
  | none => none
  | some s5 =>
  match parseStrField "DeprecatedIn".toList s5 with
  | none => none
  | some (dp, r6) =>
  match expectChar ',' r6 with
  | none => none
  | some s6 =>
  match parseStrField "Required".toList s6 with
  | none => none
  | some (rq, r7) =>
  match expectChar ',' r7 with
  | none => none
  | some s7 =>
  match parseStrField "IndirectReference".toList s7 with
  | none => none
  | some (ir, r8) =>
  match expectChar ',' r8 with
  | none => none
  | some s8 =>
  match parseStrField "Inheritable".toList s8 with
  | none => none
  | some (ih, r9) =>
  match expectChar ',' r9 with
  | none => none
  | some s9 =>
  match parseStrField "DefaultValue".toList s9 with
  | none => none
  | some (dv, r10) =>
  match expectChar ',' r10 with
  | none => none
  | some s10 =>
  match parseStrField "PossibleValues".toList s10 with
  | none => none
  | some (pv, r11) =>
  match expectChar ',' r11 with
  | none => none
  | some s11 =>
  match parseStrField "SpecialCase".toList s11 with
  | none => none
  | some (sc, r12) =>
  match expectChar ',' r12 with
  | none => none
  | some s12 =>
  match parseStrField "Link".toList s12 with
  | none => none
  | some (lk, r13) =>
  match expectChar ',' r13 with
  | none => none
  | some s13 =>
  match parseNatField "Data".toList s13 with
  | none => none
  | some (dt, r14) =>
  match expectChar ',' r14 with
  | none => none
  | some s14 =>
  match parseStrField "Documentation".toList s14 with
  | none => none
  | some (doc, r15) =>
  match expectChar '\x7d' r15 with
  | none => none
  | some s15 =>
  some (⟨⟨o, k, ty, sv, dp, rq, ir, ih, dv, pv, sc, lk⟩, dt, doc⟩, s15)

/-- Parse comma-separated records up to the closing bracket. -/
def parseItemsFuel : Nat → List Char → Option (List Item × List Char)
  | 0, _ => none
  | fuel + 1, s =>
    match parseItem s with
    | none => none
    | some (it, r) =>
      match r with
      | [] => none
      | c :: r2 =>
        if c = ',' then
          match parseItemsFuel fuel r2 with
          | none => none
          | some (l, rem) => some (it :: l, rem)
        else if c = ']' then some ([it], r2)
        else none

/-- Parse a whole records array, requiring the input to be consumed entirely. -/
def parseTable (s : List Char) : Option (List Item) :=
  match s with
  | [] => none
  | c :: r =>
    if c = '[' then
      match r with
      | [] => none
      | c2 :: r2 =>
        if c2 = ']' then (if r2 = [] then some [] else none)
        else
          match parseItemsFuel (r.length + 1) r with
          | none => none
          | some (l, rem) => if rem = [] then some l else none
    else none

/-! ### Round-trip lemmas -/

theorem isPrefixOf_append_self : ∀ (l r : List Char), l.isPrefixOf (l ++ r) = true := by
  intro l r
  induction l with
  | nil => simp [List.isPrefixOf]
  | cons a as ih => simp [List.isPrefixOf, ih]

theorem expectChar_cons (c : Char) (rest : List Char) :
    expectChar c (c :: rest) = some rest := by
  simp [expectChar]

theorem expectLit_append (lit rest : List Char) :
    expectLit lit (lit ++ rest) = some rest := by
  simp [expectLit, isPrefixOf_append_self, List.drop_left]

theorem escapeStr_quote (v : List Char) :
    escapeStr ('"' :: v) = '\\' :: '"' :: escapeStr v := by
  simp [escapeStr, escapeChar]

theorem escapeStr_backslash (v : List Char) :
    escapeStr ('\\' :: v) = '\\' :: '\\' :: escapeStr v := by
  simp [escapeStr, escapeChar]

theorem escapeStr_other (c : Char) (v : List Char) (h1 : c ≠ '"') (h2 : c ≠ '\\') :
    escapeStr (c :: v) = c :: escapeStr v := by
  simp [escapeStr, escapeChar, h1, h2]

theorem psb_quote (f : Nat) (rest : List Char) :
    parseStringBody (f + 1) ('"' :: rest) = some ([], rest) := by
  simp [parseStringBody]

theorem psb_escape (f : Nat) (e : Char) (rest : List Char) (he : e = '"' ∨ e = '\\') :
    parseStringBody (f + 1) ('\\' :: e :: rest)
      = match parseStringBody f rest with
        | none => none
        | some (str, rem) => some (e :: str, rem) := by
  simp only [parseStringBody]
  rw [if_neg (by decide), if_pos trivial, if_pos he]

theorem psb_other (f : Nat) (c : Char) (rest : List Char) (h1 : c ≠ '"') (h2 : c ≠ '\\') :
    parseStringBody (f + 1) (c :: rest)
      = match parseStringBody f rest with
        | none => none
        | some (str, rem) => some (c :: str, rem) := by
  simp only [parseStringBody]
  rw [if_neg h1, if_neg h2]

theorem parseStringBody_rt :
    ∀ (v : List Char) (fuel : Nat) (rest : List Char),
      (escapeStr v).length + 1 ≤ fuel →
      parseStringBody fuel (escapeStr v ++ '"' :: rest) = some (v, rest) := by
  intro v
  induction v with
  | nil =>
    intro fuel rest h
    cases fuel with
    | zero => simp at h
    | succ f =>
      show parseStringBody (f + 1) ('"' :: rest) = some ([], rest)
      exact psb_quote f rest
  | cons c v ih =>
    intro fuel rest h
    by_cases hq : c = '"'
    · subst hq
      rw [escapeStr_quote] at h
      simp only [List.length_cons] at h
      cases fuel with
      | zero => omega
      | succ f =>
        have e : escapeStr ('"' :: v) ++ '"' :: rest
            = '\\' :: '"' :: (escapeStr v ++ '"' :: rest) := by
          rw [escapeStr_quote]
          rfl
        rw [e, psb_escape f '"' (escapeStr v ++ '"' :: rest) (Or.inl rfl),
          ih f rest (by omega)]
    · by_cases hb : c = '\\'
      · subst hb
        rw [escapeStr_backslash] at h
        simp only [List.length_cons] at h
        cases fuel with
        | zero => omega
        | succ f =>
          have e : escapeStr ('\\' :: v) ++ '"' :: rest
              = '\\' :: '\\' :: (escapeStr v ++ '"' :: rest) := by
            rw [escapeStr_backslash]
            rfl
          rw [e, psb_escape f '\\' (escapeStr v ++ '"' :: rest) (Or.inr rfl),
            ih f rest (by omega)]
      · rw [escapeStr_other c v hq hb] at h
        simp only [List.length_cons] at h
        cases fuel with
        | zero => omega
        | succ f =>
          have e : escapeStr (c :: v) ++ '"' :: rest
              = c :: (escapeStr v ++ '"' :: rest) := by
            rw [escapeStr_other c v hq hb]
            rfl
          rw [e, psb_other f c (escapeStr v ++ '"' :: rest) hq hb, ih f rest (by omega)]

theorem parseString_rt (v rest : List Char) :
    parseString ('"' :: (escapeStr v ++ '"' :: rest)) = some (v, rest) := by
  simp only [parseString, expectChar_cons]
  refine parseStringBody_rt v _ rest ?_
  rw [List.length_append]
  omega

theorem parseStrField_rt (name v rest : List Char) :
    parseStrField name (serializeStrField name v ++ rest) = some (v, rest) := by
  unfold parseStrField serializeStrField
  have e : (('"' :: (name ++ ['"', ':'])) ++ ('"' :: (escapeStr v ++ ['"']))) ++ rest
      = ('"' :: (name ++ ['"', ':'])) ++ ('"' :: (escapeStr v ++ '"' :: rest)) := by
    simp [List.append_assoc]
  rw [e, expectLit_append]
  exact parseString_rt v rest

theorem digitChar_isDigit (n : Nat) (h : n < 10) : (Nat.digitChar n).isDigit = true := by
  interval_cases n <;> decide

theorem digitChar_toNat (n : Nat) (h : n < 10) : (Nat.digitChar n).toNat - 48 = n := by
  interval_cases n <;> decide

theorem parseDigits_cons_digit (c : Char) (rest : List Char) (acc : Nat)
    (h : c.isDigit = true) :
    parseDigits (c :: rest) acc = parseDigits rest (10 * acc + (c.toNat - 48)) := by
  simp [parseDigits, h]

theorem parseDigits_cons_not_digit (c : Char) (rest : List Char) (acc : Nat)
    (h : c.isDigit = false) :
    parseDigits (c :: rest) acc = (acc, c :: rest) := by
  simp [parseDigits, h]

/-- Consuming the emitted digit block accumulates exactly the emitted number. -/
theorem parseDigits_append :
    ∀ (fuel n acc : Nat) (rest : List Char), n < fuel →
      parseDigits (digitsFuel fuel n ++ rest) acc
        = parseDigits rest (acc * 10 ^ (digitsFuel fuel n).length + n) := by
  intro fuel
  induction fuel with
  | zero => intro n acc rest h; omega
  | succ fuel ih =>
    intro n acc rest h
    by_cases h10 : n < 10
    · have e : digitsFuel (fuel + 1) n = [Nat.digitChar n] := by
        simp [digitsFuel, h10]
      rw [e]
      show parseDigits (Nat.digitChar n :: rest) acc = _
      rw [parseDigits_cons_digit (Nat.digitChar n) rest acc (digitChar_isDigit n h10),
        digitChar_toNat n h10]
      have e2 : acc * 10 ^ ([Nat.digitChar n].length) + n = 10 * acc + n := by
        simp
        ring
      rw [e2]
    · have e : digitsFuel (fuel + 1) n
          = digitsFuel fuel (n / 10) ++ [Nat.digitChar (n % 10)] := by
        simp [digitsFuel, h10]
      rw [e]
      have e2 : (digitsFuel fuel (n / 10) ++ [Nat.digitChar (n % 10)]) ++ rest
          = digitsFuel fuel (n / 10) ++ (Nat.digitChar (n % 10) :: rest) := by
        simp
      rw [e2, ih (n / 10) acc (Nat.digitChar (n % 10) :: rest) (by omega),
        parseDigits_cons_digit (Nat.digitChar (n % 10)) rest _
          (digitChar_isDigit (n % 10) (Nat.mod_lt n (by omega))),
        digitChar_toNat (n % 10) (Nat.mod_lt n (by omega))]
      have e3 : 10 * (acc * 10 ^ (digitsFuel fuel (n / 10)).length + n / 10) + n % 10
          = acc * 10 ^ ((digitsFuel fuel (n / 10) ++ [Nat.digitChar (n % 10)]).length)
            + n := by
        rw [List.length_append]
        calc 10 * (acc * 10 ^ (digitsFuel fuel (n / 10)).length + n / 10) + n % 10
            = acc * (10 ^ (digitsFuel fuel (n / 10)).length * 10)
              + (10 * (n / 10) + n % 10) := by ring
          _ = acc * 10 ^ ((digitsFuel fuel (n / 10)).length + 1) + n := by
              rw [pow_succ, Nat.div_add_mod]
          _ = acc * 10 ^ ((digitsFuel fuel (n / 10)).length + [Nat.digitChar (n % 10)].length)
              + n := by simp
      rw [e3]

/-- The emitted digit block starts with a digit character. -/
theorem digitsFuel_head :
    ∀ (fuel n : Nat), n < fuel →
      ∃ c r, digitsFuel fuel n = c :: r ∧ c.isDigit = true := by
  intro fuel
  induction fuel with
  | zero => intro n h; omega
  | succ fuel ih =>
    intro n h
    by_cases h10 : n < 10
    · exact ⟨Nat.digitChar n, [], by simp [digitsFuel, h10], digitChar_isDigit n h10⟩
    · obtain ⟨c, r, hcr, hdig⟩ := ih (n / 10) (by omega)
      refine ⟨c, r ++ [Nat.digitChar (n % 10)], ?_, hdig⟩
      simp [digitsFuel, h10, hcr]

theorem parseNat_comma (n : Nat) (r : List Char) :
    parseNat (natDigits n ++ ',' :: r) = some (n, ',' :: r) := by
  obtain ⟨c, rs, hcr, hdig⟩ := digitsFuel_head (n + 1) n (by omega)
  have hp := parseDigits_append (n + 1) n 0 (',' :: r) (by omega)
  rw [parseDigits_cons_not_digit ',' r _ (by decide)] at hp
  have hz : (0 : Nat) * 10 ^ ((digitsFuel (n + 1) n).length) + n = n := by
    simp
  rw [hz] at hp
  show parseNat (digitsFuel (n + 1) n ++ ',' :: r) = some (n, ',' :: r)
  rw [hcr] at hp ⊢
  show parseNat (c :: (rs ++ ',' :: r)) = some (n, ',' :: r)
  simp only [parseNat, hdig, if_true]
  rw [show (c :: (rs ++ ',' :: r)) = (c :: rs) ++ ',' :: r from rfl, hp]

theorem parseNatField_rt (name : List Char) (v : Nat) (r : List Char) :
    parseNatField name (serializeNatField name v ++ ',' :: r) = some (v, ',' :: r) := by
  unfold parseNatField serializeNatField
  have e : (('"' :: (name ++ ['"', ':'])) ++ natDigits v) ++ ',' :: r
      = ('"' :: (name ++ ['"', ':'])) ++ (natDigits v ++ ',' :: r) := by
    simp [List.append_assoc]
  rw [e, expectLit_append]
  exact parseNat_comma v r

theorem parseItem_rt (it : Item) (rest : List Char) :
    parseItem (serializeItem it ++ rest) = some (it, rest) := by
  show parseItem ('\x7b' :: (serializeItemFields it ++ rest)) = some (it, rest)
  simp only [parseItem, serializeItemFields, List.append_assoc, List.cons_append,
    List.singleton_append, List.nil_append, expectChar_cons, parseStrField_rt,
    parseNatField_rt]

theorem serializeItemsNE_length :
    ∀ (more : List Item) (it : Item), more.length < (serializeItemsNE it more).length := by
  intro more
  induction more with
  | nil =>
    intro it
    simp [serializeItemsNE, List.length_append]
  | cons it2 more ih =>
    intro it
    have h := ih it2
    simp only [serializeItemsNE, List.length_append, List.length_cons]
    omega

theorem parseItemsFuel_rt :
    ∀ (more : List Item) (it : Item) (fuel : Nat), more.length < fuel →
      parseItemsFuel fuel (serializeItemsNE it more) = some (it :: more, []) := by
  intro more
  induction more with
  | nil =>
    intro it fuel h
    cases fuel with
    | zero => omega
    | succ f =>
      show parseItemsFuel (f + 1) (serializeItem it ++ [']']) = some ([it], [])
      simp only [parseItemsFuel, parseItem_rt it [']']]
      rw [if_neg (by decide), if_pos trivial]
  | cons it2 more ih =>
    intro it fuel h
    cases fuel with
    | zero => omega
    | succ f =>
      show parseItemsFuel (f + 1) (serializeItem it ++ ',' :: serializeItemsNE it2 more)
          = some (it :: it2 :: more, [])
      simp only [parseItemsFuel, parseItem_rt it (',' :: serializeItemsNE it2 more)]
      have hlen : more.length < f := by
        simp only [List.length_cons] at h
        omega
      rw [if_pos trivial, ih it2 f hlen]

/-- Claim C7: serializing the transformed table to JSON and parsing the result
yields a structurally equal table: same objects in the same order with the same
keys and values (`parse(serialize(T)) = T`). -/
theorem claim_C7 (items : List Item) :
    parseTable (serializeTable items) = some items := by
  cases items with
  | nil => decide
  | cons it more =>
    show parseTable ('[' :: serializeItemsNE it more) = some (it :: more)
    have hne : ∃ r0, serializeItemsNE it more = '\x7b' :: r0 := by
      cases more
      · exact ⟨_, rfl⟩
      · exact ⟨_, rfl⟩
    obtain ⟨r0, hr0⟩ := hne
    rw [hr0]
    simp only [parseTable]
    rw [if_pos trivial, if_neg (by decide), ← hr0,
      parseItemsFuel_rt more it ((serializeItemsNE it more).length + 1)
        (by have := serializeItemsNE_length more it; omega)]
    simp
